import Mathlib

/-!
Verification of the document-registry core of `web-gsuite-docs` (`src/app.py`).

Strings are modelled as `List Char`.  Python's regex substitutions in
`slugify` are filters over characters, `str.strip` is modelled with
`dropWhile` from both ends, substring tests (`"x" in s`) with an executable
`hasSub`, and the module-global `PUBLIC_FILES` dict with an association list
updated by Python-dict assignment semantics (replace in place, else append).
The refresh cycle (`load_files_from_json` rebinding the global) is modelled
as a function from the previous snapshot and the outcome of reading the
JSON file to the new snapshot.
-/

namespace WebGsuiteDocs

/-- Python `\s` / `str.strip()` whitespace, ASCII part: the characters
relevant to the embedded code. -/
def isPySpace (c : Char) : Bool :=
  c == ' ' || c == '\t' || c == '\n' || c == '\r' || c == '\x0b' || c == '\x0c'

/-- Characters kept by `re.sub(r'[^a-z0-9_\-\s]+', '', s)` in `slugify`
(app.py line 27): lowercase letters, digits, underscore, dash, whitespace. -/
def keptChar (c : Char) : Bool :=
  (decide ('a' ≤ c) && decide (c ≤ 'z')) ||
  (decide ('0' ≤ c) && decide (c ≤ '9')) ||
  c == '_' || c == '-' || isPySpace c

/-- Python `str.lower()`, ASCII case mapping (app.py line 26). -/
def pyLower (c : Char) : Char :=
  if 'A' ≤ c ∧ c ≤ 'Z' then Char.ofNat (c.toNat + 32) else c

/-- Python `s.strip(x)` for a single strip character `x`: remove every
leading and trailing occurrence of `x`. -/
def pyStripChar (x : Char) (l : List Char) : List Char :=
  (((l.dropWhile (· == x)).reverse).dropWhile (· == x)).reverse

/-- Python `s.strip()`: remove leading and trailing whitespace. -/
def pyStrip (l : List Char) : List Char :=
  (((l.dropWhile isPySpace).reverse).dropWhile isPySpace).reverse

/-- `slugify` (app.py lines 25-30): lowercase, drop disallowed characters,
remove all whitespace, strip leading/trailing dashes. -/
def slugify (s : List Char) : List Char :=
  pyStripChar '-' (((s.map pyLower).filter keptChar).filter (fun c => !isPySpace c))

/-- `l starts with p` on lists, executable. -/
def startsWithL : List Char → List Char → Bool
  | _, [] => true
  | [], _ :: _ => false
  | a :: as, b :: bs => a == b && startsWithL as bs

/-- `hasSub pat l`: Python's `pat in l` substring test, executable. -/
def hasSub (pat : List Char) : List Char → Bool
  | [] => pat.isEmpty
  | c :: rest => startsWithL (c :: rest) pat || hasSub pat rest

/-- `l ends with p` on lists, executable. -/
def endsWithL (l pat : List Char) : Bool :=
  startsWithL l.reverse pat.reverse

def gHost : List Char := "docs.google.com".toList
def pubSeg : List Char := "/pub".toList
def embParam : List Char := "embedded=true".toList

/-- `maybe_add_embedded_param` (app.py lines 32-37): when the URL contains
`docs.google.com` and `/pub` and does not already contain `embedded=true`,
append `embedded=true` behind `&` or `?` depending on whether the URL
already has a `?`; otherwise return the URL unchanged. -/
def maybe_add_embedded_param (url : List Char) : List Char :=
  if hasSub gHost url && hasSub pubSeg url then
    if hasSub embParam url then url
    else url ++ [if url.contains '?' then '&' else '?'] ++ embParam
  else url

/-- One JSON record of the declarative file: `title` and `url` fields,
each possibly absent (`entry.get` in app.py lines 67-68). -/
structure Rec where
  title : Option (List Char)
  url : Option (List Char)
deriving DecidableEq

/-- One value of the `file_map` dict (app.py lines 75-79). -/
structure Entry where
  title : List Char
  url : List Char
  iframeUrl : List Char
deriving DecidableEq

/-- A snapshot of the registry: the `file_map` / `PUBLIC_FILES` dict,
as an association list in insertion order. -/
abbrev SMap := List (List Char × Entry)

def untitledT : List Char := "Untitled".toList

/-- Python dict assignment `d[k] = v`: replace the value at an existing
key in place, otherwise append the binding at the end. -/
def insertEntry : SMap → List Char → Entry → SMap
  | [], k, v => [(k, v)]
  | (k', v') :: rest, k, v =>
      if k' = k then (k, v) :: rest else (k', v') :: insertEntry rest k v

/-- The body of the `for entry in data` loop of `load_files_from_json`
(app.py lines 66-79): default the title, strip the url, skip the record
when the stripped url is empty, else store under the slugified title. -/
def processRecord (m : SMap) (r : Rec) : SMap :=
  let u := pyStrip (r.url.getD [])
  if u = [] then m
  else
    let t := r.title.getD untitledT
    insertEntry m (slugify t) ⟨t, u, maybe_add_embedded_param u⟩

/-- `load_files_from_json` on successfully parsed data (app.py
lines 65-81): fold the loop body over the records, starting from the
empty dict. -/
def load_files_from_json (data : List Rec) : SMap :=
  data.foldl processRecord []

/-- Outcome of reading the JSON file at `DATA_JSON_PATH`
(app.py lines 52-63). -/
inductive LoadOutcome where
  | missingFile
  | parseError
  | parsed (data : List Rec)

/-- One refresh cycle (`load_files_from_json`, app.py lines 49-81) as a
function from the previously published `PUBLIC_FILES` and the file-read
outcome to the newly published `PUBLIC_FILES`: a missing file publishes
the empty dict (lines 52-55), a parse failure publishes the empty dict
(lines 57-63), and parsed data publishes the freshly built map (line 81). -/
def refresh (_prev : SMap) (o : LoadOutcome) : SMap :=
  match o with
  | .missingFile => []
  | .parseError => []
  | .parsed data => load_files_from_json data

/-- `PUBLIC_FILES.get(slug)` (app.py line 111). -/
def lookupS : SMap → List Char → Option Entry
  | [], _ => none
  | (k, v) :: rest, s => if k = s then some v else lookupS rest s

/-- Result of the `view_file` route, abstracted from rendering
(app.py lines 106-132). -/
inductive ViewResult where
  | notFound (slug : List Char)
  | page (title url iframeUrl : List Char)
deriving DecidableEq

/-- `view_file` (app.py lines 106-132): look the slug up in
`PUBLIC_FILES`; on a miss return the not-found text, otherwise render the
page with the entry's title and iframe URL. -/
def view_file (m : SMap) (slug : List Char) : ViewResult :=
  match lookupS m slug with
  | none => .notFound slug
  | some e => .page e.title e.url e.iframeUrl

/-! ### Substring (hasSub) lemmas -/

lemma startsWithL_nil (l : List Char) : startsWithL l [] = true := by
  cases l <;> rfl

lemma startsWithL_refl (l : List Char) : startsWithL l l = true := by
  induction l with
  | nil => rfl
  | cons a t ih => simp [startsWithL, ih]

lemma startsWithL_append (p l t : List Char) (h : startsWithL l p = true) :
    startsWithL (l ++ t) p = true := by
  induction p generalizing l with
  | nil => exact startsWithL_nil _
  | cons b bs ih =>
    cases l with
    | nil => simp [startsWithL] at h
    | cons a as =>
      simp only [startsWithL, Bool.and_eq_true] at h
      simp only [List.cons_append, startsWithL, Bool.and_eq_true]
      exact ⟨h.1, ih as h.2⟩

lemma hasSub_nil (l : List Char) : hasSub [] l = true := by
  cases l with
  | nil => rfl
  | cons c rest => simp [hasSub, startsWithL_nil]

lemma hasSub_append_right (p l t : List Char) (h : hasSub p l = true) :
    hasSub p (l ++ t) = true := by
  induction l with
  | nil =>
    simp only [hasSub, List.isEmpty_iff] at h
    subst h
    simpa using hasSub_nil t
  | cons c rest ih =>
    simp only [hasSub, Bool.or_eq_true] at h
    simp only [List.cons_append, hasSub, Bool.or_eq_true]
    rcases h with h | h
    · exact Or.inl (startsWithL_append p (c :: rest) t h)
    · exact Or.inr (ih h)

lemma hasSub_append_self (p s : List Char) : hasSub p (s ++ p) = true := by
  induction s with
  | nil =>
    cases p with
    | nil => rfl
    | cons b bs => simp [hasSub, startsWithL_refl]
  | cons a s' ih => simp [hasSub, ih]

/-! ### List helper lemmas -/

lemma dropWhile_dropWhile (p : Char → Bool) (l : List Char) :
    (l.dropWhile p).dropWhile p = l.dropWhile p := by
  induction l with
  | nil => rfl
  | cons a t ih =>
    by_cases h : p a = true
    · simp [List.dropWhile_cons, h, ih]
    · simp [List.dropWhile_cons, h]

lemma head?_dropWhile (p : Char → Bool) (l : List Char) (c : Char)
    (h : (l.dropWhile p).head? = some c) : p c = false := by
  induction l with
  | nil => simp at h
  | cons a t ih =>
    by_cases ha : p a = true
    · rw [List.dropWhile_cons_of_pos ha] at h
      exact ih h
    · rw [List.dropWhile_cons_of_neg ha] at h
      simp only [List.head?_cons, Option.some.injEq] at h
      subst h
      exact Bool.eq_false_iff.mpr ha

lemma dropWhile_eq_self (p : Char → Bool) (l : List Char)
    (h : ∀ c, l.head? = some c → p c = false) : l.dropWhile p = l := by
  cases l with
  | nil => rfl
  | cons a t => exact List.dropWhile_cons_of_neg (by simp [h a rfl])

lemma mem_dropWhile (p : Char → Bool) (l : List Char) (c : Char)
    (h : c ∈ l.dropWhile p) : c ∈ l := by
  induction l with
  | nil => simp at h
  | cons a t ih =>
    by_cases ha : p a = true
    · rw [List.dropWhile_cons_of_pos ha] at h
      exact List.mem_cons_of_mem a (ih h)
    · rwa [List.dropWhile_cons_of_neg ha] at h

lemma dropWhile_suffix_ex (p : Char → Bool) (l : List Char) :
    ∃ s, s ++ l.dropWhile p = l := by
  induction l with
  | nil => exact ⟨[], rfl⟩
  | cons a t ih =>
    by_cases ha : p a = true
    · obtain ⟨s, hs⟩ := ih
      exact ⟨a :: s, by rw [List.dropWhile_cons_of_pos ha]; simpa using hs⟩
    · exact ⟨[], by rw [List.dropWhile_cons_of_neg ha]; rfl⟩

lemma head?_append_left (l₁ l₂ : List Char) (h : l₁ ≠ []) :
    (l₁ ++ l₂).head? = l₁.head? := by
  cases l₁ with
  | nil => exact absurd rfl h
  | cons a t => rfl

lemma mem_pyStripChar (x : Char) (l : List Char) (c : Char)
    (h : c ∈ pyStripChar x l) : c ∈ l := by
  simp only [pyStripChar, List.mem_reverse] at h
  exact mem_dropWhile _ _ _ (List.mem_reverse.mp (mem_dropWhile _ _ _ h))

lemma pyStripChar_idem (x : Char) (l : List Char) :
    pyStripChar x (pyStripChar x l) = pyStripChar x l := by
  simp only [pyStripChar]
  set p : Char → Bool := fun c => c == x with hp
  set A : List Char := l.dropWhile p with hA
  set B : List Char := A.reverse.dropWhile p with hB
  have hR : B.reverse.dropWhile p = B.reverse := by
    apply dropWhile_eq_self
    intro c hc
    obtain ⟨s, hs⟩ := dropWhile_suffix_ex p A.reverse
    rw [← hB] at hs
    have hBne : B.reverse ≠ [] := by
      intro hnil
      rw [hnil] at hc
      simp at hc
    have hAeq : A = B.reverse ++ s.reverse := by
      have h' : B.reverse ++ s.reverse = A := by
        simpa using congrArg List.reverse hs
      exact h'.symm
    have : A.head? = some c := by
      rw [hAeq, head?_append_left _ _ hBne, hc]
    exact head?_dropWhile p l c (hA ▸ this)
  rw [hR, List.reverse_reverse, dropWhile_dropWhile]

lemma filter_eq_self_of (p : Char → Bool) (l : List Char)
    (h : ∀ c ∈ l, p c = true) : l.filter p = l := by
  induction l with
  | nil => rfl
  | cons a t ih =>
    rw [List.filter_cons_of_pos (h a (List.mem_cons_self a t))]
    rw [ih (fun c hc => h c (List.mem_cons_of_mem a hc))]

lemma map_id_of (f : Char → Char) (l : List Char)
    (h : ∀ c ∈ l, f c = c) : l.map f = l := by
  induction l with
  | nil => rfl
  | cons a t ih =>
    rw [List.map_cons, h a (List.mem_cons_self a t),
      ih (fun c hc => h c (List.mem_cons_of_mem a hc))]

/-! ### Character facts for slugify -/

lemma pyLower_fixed (c : Char) (h1 : keptChar c = true) (h2 : isPySpace c = false) :
    pyLower c = c := by
  simp only [keptChar, h2, Bool.or_false, Bool.or_eq_true, Bool.and_eq_true,
    decide_eq_true_eq, beq_iff_eq] at h1
  rw [pyLower, if_neg]
  rintro ⟨hA, hZ⟩
  rcases h1 with ((⟨ha, _⟩ | ⟨_, h9⟩) | hu) | hd
  · exact absurd (le_trans ha hZ) (by decide)
  · exact absurd (le_trans hA h9) (by decide)
  · rw [hu] at hZ; exact absurd hZ (by decide)
  · rw [hd] at hA; exact absurd hA (by decide)

lemma slugify_mem (s : List Char) (c : Char) (h : c ∈ slugify s) :
    keptChar c = true ∧ isPySpace c = false := by
  have h1 : c ∈ ((s.map pyLower).filter keptChar).filter (fun c => !isPySpace c) :=
    mem_pyStripChar _ _ _ h
  rw [List.mem_filter] at h1
  obtain ⟨h2, h3⟩ := h1
  rw [List.mem_filter] at h2
  exact ⟨h2.2, by simpa using h3⟩

/-! ### Normalization lemmas -/

lemma norm_fixed_of (v : List Char) (hg : hasSub gHost v = true)
    (hp : hasSub pubSeg v = true) (he : hasSub embParam v = true) :
    maybe_add_embedded_param v = v := by
  simp [maybe_add_embedded_param, hg, hp, he]

lemma norm_of_cond_false (u : List Char)
    (h : (hasSub gHost u && hasSub pubSeg u) = false) :
    maybe_add_embedded_param u = u := by
  simp [maybe_add_embedded_param, h]

/-! ### Concrete inputs used by the scenario theorems -/

def urlA : List Char := "https://example.com/a".toList
def urlB : List Char := "https://example.com/b".toList
def q1a : Rec := ⟨some ("Q1 Report".toList), some urlA⟩
def q1b : Rec := ⟨some ("Q1  Report!".toList), some urlB⟩

def aDocRec : Rec := ⟨some ("A".toList), some urlA⟩
def prevSnap : SMap := load_files_from_json [aDocRec]

def myDocUrl : List Char := "https://docs.google.com/document/d/ABC/edit".toList
def myDocRec : Rec := ⟨some ("My Doc".toList), some myDocUrl⟩
def claimedSuffix : List Char :=
  "/document/d/ABC/preview?embedded=true&rm=minimal".toList

def xUrl : List Char := "https://example.com/x".toList
def yUrl : List Char := "https://example.com/y".toList
def bangRec : Rec := ⟨some ("!!!".toList), some xUrl⟩
def questRec : Rec := ⟨some ("???".toList), some yUrl⟩

def goodRec : Rec := ⟨some ("Good".toList), some ("https://example.com/good".toList)⟩
def blankRec : Rec := ⟨some ("Blank".toList), some ("   ".toList)⟩

def plainUrl : List Char := "https://example.org/page".toList
def pubUrl : List Char := "https://docs.google.com/document/d/e/XYZ/pub".toList

/-! ### Claim theorems -/

/-- C1 (code evaluation): on the two records titled `"Q1 Report"` and
`"Q1  Report!"`, both titles slugify to `q1report` and
`load_files_from_json` produces a single entry: the second record silently
overwrites the first instead of receiving the suffixed slug `q1report-2`
that the specification mandates. -/
theorem C1_code_eval :
    slugify ("Q1 Report".toList) = "q1report".toList ∧
    slugify ("Q1  Report!".toList) = "q1report".toList ∧
    load_files_from_json [q1a, q1b] =
      [("q1report".toList, ⟨"Q1  Report!".toList, urlB, urlB⟩)] ∧
    List.length (load_files_from_json [q1a, q1b]) = 1 := by
  refine ⟨by decide, by decide, by decide, by decide⟩

/-- C2 (counterexample): starting from a published snapshot containing the
slug `a`, a refresh cycle whose file read fails at the parse step does NOT
leave the snapshot unchanged: `load_files_from_json` rebinds
`PUBLIC_FILES` to the empty dict, and `a` is no longer lookup-able. -/
theorem C2_counterexample :
    lookupS prevSnap ("a".toList) ≠ none ∧
    refresh prevSnap .parseError ≠ prevSnap ∧
    lookupS (refresh prevSnap .parseError) ("a".toList) = none := by
  refine ⟨by decide, by decide, rfl⟩

/-- C2 (amended): a refresh cycle that fails at the parse step publishes
the empty mapping, so no slug is lookup-able afterwards — the previous
snapshot is not retained. -/
theorem C2_amended_parse_error_empties (prev : SMap) (s : List Char) :
    refresh prev .parseError = [] ∧
    lookupS (refresh prev .parseError) s = none :=
  ⟨rfl, rfl⟩

/-- C3 (counterexample): processing the record
`{"title": "My Doc", "url": "https://docs.google.com/document/d/ABC/edit"}`
yields the slug `mydoc`, but the stored embed URL is the source URL
unchanged — it does not end in
`/document/d/ABC/preview?embedded=true&rm=minimal`: the code never
rewrites `/edit` to `/preview` and never appends `rm=minimal`. -/
theorem C3_counterexample :
    load_files_from_json [myDocRec] =
      [("mydoc".toList, ⟨"My Doc".toList, myDocUrl, myDocUrl⟩)] ∧
    endsWithL (maybe_add_embedded_param myDocUrl) claimedSuffix = false := by
  refine ⟨by decide, by decide⟩

/-- C3 (amended): processing the record
`{"title": "My Doc", "url": "https://docs.google.com/document/d/ABC/edit"}`
produces one entry with slug `mydoc` whose embed URL is the source URL
unchanged; in general any URL without a `/pub` segment — the `/edit` form
included — passes through normalization unmodified (no `/preview`
rewriting, no `rm=minimal`). -/
theorem C3_amended_edit_passthrough :
    load_files_from_json [myDocRec] =
      [("mydoc".toList, ⟨"My Doc".toList, myDocUrl, myDocUrl⟩)] ∧
    ∀ u, hasSub pubSeg u = false → maybe_add_embedded_param u = u := by
  refine ⟨by decide, ?_⟩
  intro u h
  exact norm_of_cond_false u (by rw [h, Bool.and_false])

/-- C3 witness: the amended general clause applied at the concrete
`/edit` URL of the scenario. -/
theorem C3_amended_witness :
    hasSub pubSeg myDocUrl = false ∧
    maybe_add_embedded_param myDocUrl = myDocUrl :=
  ⟨by decide, C3_amended_edit_passthrough.2 myDocUrl (by decide)⟩

/-- C4: `slugify` is idempotent — every character surviving one pass is a
kept, non-whitespace, lowercase-fixed character, so the second pass's
lowering, filtering and whitespace removal are all the identity, and
stripping dashes twice equals stripping once. -/
theorem C4_slugify_idem (s : List Char) : slugify (slugify s) = slugify s := by
  have hmem : ∀ c ∈ slugify s, keptChar c = true ∧ isPySpace c = false :=
    fun c hc => slugify_mem s c hc
  have h1 : (slugify s).map pyLower = slugify s :=
    map_id_of _ _ (fun c hc => pyLower_fixed c (hmem c hc).1 (hmem c hc).2)
  have h3 : ∀ l : List Char, (∀ c ∈ l, keptChar c = true) →
      l.filter keptChar = l := fun l h => filter_eq_self_of _ _ h
  show pyStripChar '-'
      ((((slugify s).map pyLower).filter keptChar).filter (fun c => !isPySpace c))
    = slugify s
  rw [h1, h3 (slugify s) (fun c hc => (hmem c hc).1),
    filter_eq_self_of _ _ (fun c hc => by simp [(hmem c hc).2])]
  conv_lhs => rw [slugify]
  rw [pyStripChar_idem]
  rfl

/-- C5: embed-URL normalization is idempotent — when nothing is appended
the second pass sees the same string, and when `embedded=true` is
appended the result still contains `docs.google.com` and `/pub` and now
contains `embedded=true`, so the second pass returns it unchanged. -/
theorem C5_normalize_idem (u : List Char) :
    maybe_add_embedded_param (maybe_add_embedded_param u) =
      maybe_add_embedded_param u := by
  by_cases h1 : (hasSub gHost u && hasSub pubSeg u) = true
  · rcases Bool.and_eq_true_iff.mp h1 with ⟨hg0, hp0⟩
    by_cases h2 : hasSub embParam u = true
    · have hu : maybe_add_embedded_param u = u :=
        norm_fixed_of u hg0 hp0 h2
      rw [hu, hu]
    · have hu : maybe_add_embedded_param u =
          u ++ [if u.contains '?' then '&' else '?'] ++ embParam := by
        simp [maybe_add_embedded_param, hg0, hp0, h2]
      rw [hu]
      apply norm_fixed_of
      · rw [List.append_assoc]
        exact hasSub_append_right _ _ _ hg0
      · rw [List.append_assoc]
        exact hasSub_append_right _ _ _ hp0
      · exact hasSub_append_self _ _
  · have hu : maybe_add_embedded_param u = u := norm_of_cond_false u (by simpa using h1)
    rw [hu, hu]

/-- C6: a record whose `url` is missing or strips to the empty string
contributes nothing: the snapshot built with the record equals the one
built without it. -/
theorem C6_blank_url_skipped (pre post : List Rec) (r : Rec)
    (h : pyStrip (r.url.getD []) = []) :
    load_files_from_json (pre ++ r :: post) =
      load_files_from_json (pre ++ post) := by
  have hpr : ∀ m : SMap, processRecord m r = m := by
    intro m
    simp [processRecord, h]
  simp only [load_files_from_json, List.foldl_append, List.foldl_cons, hpr]

/-- C6 witness: a record with whitespace-only url `"   "` is skipped. -/
theorem C6_witness :
    pyStrip (blankRec.url.getD []) = [] ∧
    load_files_from_json [goodRec, blankRec] = load_files_from_json [goodRec] :=
  ⟨by decide, C6_blank_url_skipped [goodRec] [] blankRec (by decide)⟩

/-- C7: a refresh cycle that finds the file missing publishes the empty
mapping; any slug lookup afterwards misses and the `view_file` route
returns the not-found outcome instead of raising. -/
theorem C7_missing_file_empty (prev : SMap) (s : List Char) :
    refresh prev .missingFile = [] ∧
    lookupS (refresh prev .missingFile) s = none ∧
    view_file (refresh prev .missingFile) s = .notFound s :=
  ⟨rfl, rfl, rfl⟩

/-- C8 (code evaluation): two titles normalizing to the empty string are
NOT given a non-empty fallback slug: both are assigned the empty slug,
the second silently overwrites the first, and the snapshot holds a single
entry keyed by the empty string. -/
theorem C8_code_eval :
    slugify ("!!!".toList) = [] ∧
    slugify ("???".toList) = [] ∧
    load_files_from_json [bangRec, questRec] =
      [([], ⟨"???".toList, yUrl, yUrl⟩)] := by
  refine ⟨by decide, by decide, by decide⟩

/-- C9: a URL not containing the document host passes through unchanged,
and a URL containing both the document host and a `/pub` segment gets
exactly one `embedded=true` appended (with `&` when a `?` is already
present, `?` otherwise) unless it already contains `embedded=true`. -/
theorem C9_passthrough_and_pub :
    (∀ u, hasSub gHost u = false → maybe_add_embedded_param u = u) ∧
    (∀ u, hasSub gHost u = true → hasSub pubSeg u = true →
      maybe_add_embedded_param u =
        if hasSub embParam u = true then u
        else u ++ [if u.contains '?' then '&' else '?'] ++ embParam) := by
  constructor
  · intro u h
    exact norm_of_cond_false u (by rw [h, Bool.false_and])
  · intro u hg hp
    by_cases he : hasSub embParam u = true
    · rw [norm_fixed_of u hg hp he, if_pos he]
    · rw [if_neg he]
      simp [maybe_add_embedded_param, hg, hp, he]

/-- C9 witness: the pass-through clause at a non-Google URL and the
`/pub` clause at a concrete published-document URL. -/
theorem C9_witness :
    (hasSub gHost plainUrl = false ∧
      maybe_add_embedded_param plainUrl = plainUrl) ∧
    (hasSub gHost pubUrl = true ∧ hasSub pubSeg pubUrl = true ∧
      maybe_add_embedded_param pubUrl = pubUrl ++ ['?'] ++ embParam) :=
  ⟨⟨by decide, C9_passthrough_and_pub.1 plainUrl (by decide)⟩,
   ⟨by decide, by decide,
     (C9_passthrough_and_pub.2 pubUrl (by decide) (by decide)).trans (by decide)⟩⟩

/-- C10: normalization only ever appends to its input — the input URL is
a prefix of the output (witnessed by an explicit appended tail), so every
path segment of the source URL, `/edit` or `/pub` included, survives
verbatim. -/
theorem C10_input_left_of_output (u : List Char) :
    ∃ t, u ++ t = maybe_add_embedded_param u := by
  by_cases h1 : (hasSub gHost u && hasSub pubSeg u) = true
  · by_cases h2 : hasSub embParam u = true
    · exact ⟨[], by simp [maybe_add_embedded_param, h1, h2]⟩
    · refine ⟨[if u.contains '?' then '&' else '?'] ++ embParam, ?_⟩
      simp [maybe_add_embedded_param, h1, h2, List.append_assoc]
  · exact ⟨[], by simp [maybe_add_embedded_param, h1]⟩

end WebGsuiteDocs
